import Mathlib

/-!
# Verification of the year-recap media pipeline

Shallow embedding of the date-resolution, change-detection, day-assignment,
checkpoint and rendered-clip-cache logic of the `yearrecap` repository
(`src/utils.py`, `src/incremental_scan.py`, `src/assign_media.py`,
`src/checkpoint.py`, `src/generate_optimized.py`,
`src/generate_recap_optimized.py`), together with theorems settling the
frozen claims about that logic.

Filesystem- and subprocess-dependent inputs (EXIF tag tables, ffprobe
output, file modification times, directory listings, persisted JSON) are
modelled as explicit values handed to the embedded functions; every
function is translated from the Python source, branch by branch.
Characters are modelled as-is; the digit class of the source's regular
expressions is modelled as the ASCII digits `'0'..'9'`.
-/

namespace YearRecap

/-- A naive `datetime.datetime` value: year, month, day, hour, minute,
second, microsecond.  Python compares datetimes lexicographically on this
field tuple. -/
structure DT where
  year : Nat
  month : Nat
  day : Nat
  hour : Nat
  minute : Nat
  second : Nat
  micro : Nat
deriving DecidableEq, Repr

/-- Field tuple of a datetime, in comparison order. -/
def DT.toL (d : DT) : List Nat :=
  [d.year, d.month, d.day, d.hour, d.minute, d.second, d.micro]

/-- Lexicographic `≤` on lists of naturals (Python tuple comparison). -/
def lexLeb : List Nat → List Nat → Bool
  | [], _ => true
  | _ :: _, [] => false
  | a :: as, b :: bs => if a < b then true else if b < a then false else lexLeb as bs

/-- Python's `datetime <= datetime`. -/
def DT.leb (a b : DT) : Bool := lexLeb a.toL b.toL

/-! (Order lemmas about `lexLeb` and `DT.leb` follow the definitions, in
the theorems part of this file.) -/

/-! ## Digits and numeral parsing (`re` digit class, `int`) -/

/-- ASCII decimal digit test (the `\d` class of the source's patterns). -/
def isDig (c : Char) : Bool := 48 ≤ c.toNat && c.toNat ≤ 57

/-- Numeric value of a digit character. -/
def digVal (c : Char) : Nat := c.toNat - 48

/-- `int` of a digit string. -/
def digitsToNat (l : List Char) : Nat := l.foldl (fun a c => a * 10 + digVal c) 0

/-- Consume exactly `n` digit characters; return them and the rest. -/
def takeDigs : Nat → List Char → Option (List Char × List Char)
  | 0, l => some ([], l)
  | _ + 1, [] => none
  | n + 1, c :: t =>
    if isDig c then (takeDigs n t).map (fun p => (c :: p.1, p.2)) else none

/-! ## Calendar validation (`datetime` constructor / `strptime`) -/

/-- Gregorian leap-year rule used by `datetime`. -/
def isLeapYear (y : Nat) : Bool := y % 4 == 0 && (y % 100 != 0 || y % 400 == 0)

/-- Length of a month. -/
def daysInMonth (y mo : Nat) : Nat :=
  if mo = 2 then (if isLeapYear y then 29 else 28)
  else if mo = 4 ∨ mo = 6 ∨ mo = 9 ∨ mo = 11 then 30
  else 31

/-- `datetime(year, month, day)` at midnight: validates the ranges that the
`datetime` constructor enforces (`MINYEAR ≤ y ≤ MAXYEAR`, month 1-12, day
within the month); out of range raises `ValueError`, modelled as `none`. -/
def datetimeYMD (y mo d : Nat) : Option DT :=
  if 1 ≤ y ∧ y ≤ 9999 ∧ 1 ≤ mo ∧ mo ≤ 12 ∧ 1 ≤ d ∧ d ≤ daysInMonth y mo then
    some ⟨y, mo, d, 0, 0, 0, 0⟩
  else none

/-- `datetime.strptime(d8, "%Y%m%d")` for an 8-digit string: the first four
digits are the year, then two-digit month and two-digit day, validated as
a calendar date.  (For exactly eight digits the `strptime` field patterns
admit precisely the two-digit month/day forms, and the month/day ranges they
accept coincide with the `datetime` constructor's checks.) -/
def parseYMD (d8 : List Char) : Option (Nat × Nat × Nat) :=
  if d8.length = 8 then
    let y := digitsToNat (d8.take 4)
    let mo := digitsToNat ((d8.drop 4).take 2)
    let d := digitsToNat (d8.drop 6)
    match datetimeYMD y mo d with
    | some _ => some (y, mo, d)
    | none => none
  else none

/-- The time-of-day part of `strptime(_, "%Y%m%d_%H%M%S")` for a 6-digit
string: two digits each of hour, minute, second; hour ≤ 23, minute ≤ 59,
second ≤ 59 (`strptime` itself admits leap seconds 60-61, but constructing
the `datetime` then raises, so the call as a whole fails). -/
def parseHMS (t6 : List Char) : Option (Nat × Nat × Nat) :=
  if t6.length = 6 then
    let h := digitsToNat (t6.take 2)
    let mi := digitsToNat ((t6.drop 2).take 2)
    let s := digitsToNat (t6.drop 4)
    if h ≤ 23 ∧ mi ≤ 59 ∧ s ≤ 59 then some (h, mi, s) else none
  else none

/-! ## Regex searches of `extract_date_from_filename` -/

/-- Match `(\d{8})_(\d{6})` at the start of the character list. -/
def matchP1 (l : List Char) : Option (List Char × List Char) :=
  match takeDigs 8 l with
  | none => none
  | some (d8, rest) =>
    match rest with
    | '_' :: rest2 =>
      match takeDigs 6 rest2 with
      | none => none
      | some (t6, _) => some (d8, t6)
    | _ => none

/-- `re.search(r"(\d{8})_(\d{6})", s)`: leftmost match. -/
def searchP1 : List Char → Option (List Char × List Char)
  | [] => none
  | c :: t =>
    match matchP1 (c :: t) with
    | some r => some r
    | none => searchP1 t

/-- `re.search(r"(\d{8})", s)`: leftmost run of eight digits. -/
def searchP2 : List Char → Option (List Char)
  | [] => none
  | c :: t =>
    match takeDigs 8 (c :: t) with
    | some (d8, _) => some d8
    | none => searchP2 t

/-- Match `(\d{4})-(\d{2})-(\d{2})` at the start of the character list. -/
def matchP3 (l : List Char) : Option (List Char × List Char × List Char) :=
  match takeDigs 4 l with
  | none => none
  | some (y4, rest) =>
    match rest with
    | '-' :: rest2 =>
      match takeDigs 2 rest2 with
      | none => none
      | some (m2, rest3) =>
        match rest3 with
        | '-' :: rest4 =>
          match takeDigs 2 rest4 with
          | none => none
          | some (d2, _) => some (y4, m2, d2)
        | _ => none
    | _ => none

/-- `re.search(r"(\d{4})-(\d{2})-(\d{2})", s)`: leftmost match. -/
def searchP3 : List Char → Option (List Char × List Char × List Char)
  | [] => none
  | c :: t =>
    match matchP3 (c :: t) with
    | some r => some r
    | none => searchP3 t

/-! ## `extract_date_from_filename` (src/utils.py) -/

/-- Pattern 1 of `extract_date_from_filename`: `YYYYMMDD_HHMMSS`.  Yields a
datetime only when the `strptime` parse succeeds and the year passes the
2000-2030 sanity check; otherwise this pattern contributes nothing. -/
def tryPattern1 (l : List Char) : Option DT :=
  match searchP1 l with
  | none => none
  | some (ds, ts) =>
    match parseYMD ds, parseHMS ts with
    | some (y, mo, d), some (h, mi, s) =>
      if 2000 ≤ y ∧ y ≤ 2030 then some ⟨y, mo, d, h, mi, s, 0⟩ else none
    | _, _ => none

/-- Pattern 2: a bare `YYYYMMDD` anywhere in the name. -/
def tryPattern2 (l : List Char) : Option DT :=
  match searchP2 l with
  | none => none
  | some ds =>
    match parseYMD ds with
    | some (y, mo, d) =>
      if 2000 ≤ y ∧ y ≤ 2030 then some ⟨y, mo, d, 0, 0, 0, 0⟩ else none
    | none => none

/-- Pattern 3: `YYYY-MM-DD`. -/
def tryPattern3 (l : List Char) : Option DT :=
  match searchP3 l with
  | none => none
  | some (y4, m2, d2) =>
    match datetimeYMD (digitsToNat y4) (digitsToNat m2) (digitsToNat d2) with
    | some dt => if 2000 ≤ dt.year ∧ dt.year ≤ 2030 then some dt else none
    | none => none

/-- The pattern-2-then-pattern-3 tail of `extract_date_from_filename`. -/
def fallback23 (l : List Char) : Option DT :=
  match tryPattern2 l with
  | some dt => some dt
  | none => tryPattern3 l

/-- `extract_date_from_filename` (src/utils.py): try the three filename
patterns in order; the first one that yields a plausible date (year
2000-2030) wins. -/
def extract_date_from_filename (filename : String) : Option DT :=
  match tryPattern1 filename.toList with
  | some dt => some dt
  | none => fallback23 filename.toList

/-! ## `os.path.splitext` extension extraction -/

/-- The portion of a path after its last `'/'` (`os.path.basename`). -/
def afterLastSlash (l : List Char) : List Char :=
  (l.reverse.takeWhile (fun c => c != '/')).reverse

/-- The extension of a basename per `os.path.splitext`: from the last dot
onward, except that a basename consisting of leading dots only before that
dot has no extension. -/
def extSplit (base : List Char) : List Char :=
  let revB := base.reverse
  let afterDot := revB.takeWhile (fun c => c != '.')
  if afterDot.length = revB.length then []
  else
    let beforeRev := revB.drop (afterDot.length + 1)
    if beforeRev.any (fun c => c != '.') then '.' :: afterDot.reverse else []

/-- `os.path.splitext(path)[1].lower()`. -/
def extLower (path : String) : String :=
  String.mk ((extSplit (afterLastSlash path.toList)).map Char.toLower)

/-! ## EXIF date parsing (`get_image_exif_date`, src/utils.py) -/

/-- Consume a run of one or two digits (a `strptime` 1-2 digit field
delimited by a non-digit); a run of zero or of three-or-more digits at this
position makes the whole parse fail. -/
def takeRun12 (l : List Char) : Option (Nat × List Char) :=
  let run := l.takeWhile isDig
  if run.length = 1 ∨ run.length = 2 then some (digitsToNat run, l.drop run.length)
  else none

/-- `datetime.strptime(s, "%Y:%m:%d %H:%M:%S")`: four-digit year, then
colon/space separated 1-2 digit fields, whole string consumed, ranges
validated as by the `datetime` constructor. -/
def parseExifDT (s : List Char) : Option DT :=
  match takeDigs 4 s with
  | none => none
  | some (y4, r1) =>
    match r1 with
    | ':' :: r2 =>
      match takeRun12 r2 with
      | none => none
      | some (mo, r3) =>
        match r3 with
        | ':' :: r4 =>
          match takeRun12 r4 with
          | none => none
          | some (d, r5) =>
            match r5 with
            | ' ' :: r6 =>
              match takeRun12 r6 with
              | none => none
              | some (h, r7) =>
                match r7 with
                | ':' :: r8 =>
                  match takeRun12 r8 with
                  | none => none
                  | some (mi, r9) =>
                    match r9 with
                    | ':' :: r10 =>
                      match takeRun12 r10 with
                      | none => none
                      | some (sec, r11) =>
                        if r11 = [] ∧ h ≤ 23 ∧ mi ≤ 59 ∧ sec ≤ 59 then
                          match datetimeYMD (digitsToNat y4) mo d with
                          | some dt => some { dt with hour := h, minute := mi, second := sec }
                          | none => none
                        else none
                    | _ => none
                | _ => none
            | _ => none
        | _ => none
    | _ => none

/-- Outcome of opening a file and reading its EXIF tag table: any I/O or
decoding exception is `err`; otherwise a tag-name-to-value table. -/
inductive ExifRead
  | err
  | tags (ts : List (String × String))
deriving DecidableEq, Repr

/-- `tag in tags` / `tags[tag]` on the EXIF table. -/
def lookupTag (ts : List (String × String)) (k : String) : Option String :=
  match ts with
  | [] => none
  | (k', v) :: rest => if k' = k then some v else lookupTag rest k

/-- The tag-priority loop of `get_image_exif_date`: first listed tag that is
present and parses wins; a present tag whose value fails to parse
(`ValueError`) is skipped and the next tag is tried. -/
def firstTagDate (names : List String) (ts : List (String × String)) : Option DT :=
  match names with
  | [] => none
  | k :: ks =>
    match lookupTag ts k with
    | none => firstTagDate ks ts
    | some v =>
      match parseExifDT v.toList with
      | some dt => some dt
      | none => firstTagDate ks ts

/-- `get_image_exif_date` (src/utils.py): read failure is swallowed to
`none`; otherwise try `EXIF DateTimeOriginal`, `EXIF DateTimeDigitized`,
`Image DateTime` in order. -/
def get_image_exif_date : ExifRead → Option DT
  | .err => none
  | .tags ts =>
    firstTagDate ["EXIF DateTimeOriginal", "EXIF DateTimeDigitized", "Image DateTime"] ts

/-! ## Video metadata date (`get_video_metadata_date`, src/utils.py) -/

/-- `%f`: one to six fractional digits, scaled to microseconds. -/
def takeFrac (l : List Char) : Option (Nat × List Char) :=
  let run := l.takeWhile isDig
  if 1 ≤ run.length ∧ run.length ≤ 6 then
    some (digitsToNat run * 10 ^ (6 - run.length), l.drop run.length)
  else none

/-- The `H:M:S` tail shared by both ISO formats, starting after `'T'`. -/
def parseIsoHMS (l : List Char) : Option (Nat × Nat × Nat × List Char) :=
  match takeRun12 l with
  | none => none
  | some (h, r1) =>
    match r1 with
    | ':' :: r2 =>
      match takeRun12 r2 with
      | none => none
      | some (mi, r3) =>
        match r3 with
        | ':' :: r4 =>
          match takeRun12 r4 with
          | none => none
          | some (s, r5) => some (h, mi, s, r5)
        | _ => none
    | _ => none

/-- The `YYYY-m-dT` head shared by both ISO formats. -/
def parseIsoYMD (l : List Char) : Option (Nat × Nat × Nat × List Char) :=
  match takeDigs 4 l with
  | none => none
  | some (y4, r1) =>
    match r1 with
    | '-' :: r2 =>
      match takeRun12 r2 with
      | none => none
      | some (mo, r3) =>
        match r3 with
        | '-' :: r4 =>
          match takeRun12 r4 with
          | none => none
          | some (d, r5) =>
            match r5 with
            | 'T' :: r6 => some (digitsToNat y4, mo, d, r6)
            | _ => none
        | _ => none
    | _ => none

/-- `datetime.strptime(s, "%Y-%m-%dT%H:%M:%S.%fZ")`. -/
def parseIsoFrac (s : List Char) : Option DT :=
  match parseIsoYMD s with
  | none => none
  | some (y, mo, d, r) =>
    match parseIsoHMS r with
    | none => none
    | some (h, mi, sec, r2) =>
      match r2 with
      | '.' :: r3 =>
        match takeFrac r3 with
        | none => none
        | some (f, r4) =>
          if r4 = ['Z'] ∧ h ≤ 23 ∧ mi ≤ 59 ∧ sec ≤ 59 then
            match datetimeYMD y mo d with
            | some dt => some { dt with hour := h, minute := mi, second := sec, micro := f }
            | none => none
          else none
      | _ => none

/-- `datetime.strptime(s, "%Y-%m-%dT%H:%M:%SZ")`. -/
def parseIsoPlain (s : List Char) : Option DT :=
  match parseIsoYMD s with
  | none => none
  | some (y, mo, d, r) =>
    match parseIsoHMS r with
    | none => none
    | some (h, mi, sec, r2) =>
      if r2 = ['Z'] ∧ h ≤ 23 ∧ mi ≤ 59 ∧ sec ≤ 59 then
        match datetimeYMD y mo d with
        | some dt => some { dt with hour := h, minute := mi, second := sec }
        | none => none
      else none

/-- Outcome of the `ffprobe` invocation: `err` covers exceptions, non-zero
exit and undecodable JSON; `noTime` a well-formed reply without a
`creation_time` tag; `time s` a reply carrying the tag value `s`. -/
inductive VideoProbe
  | err
  | noTime
  | time (s : String)
deriving DecidableEq, Repr

/-- `get_video_metadata_date` (src/utils.py): every failure path yields
`none`; a `creation_time` value is parsed with the fractional ISO format
first, then the plain one. -/
def get_video_metadata_date : VideoProbe → Option DT
  | .err => none
  | .noTime => none
  | .time s =>
    match parseIsoFrac s.toList with
    | some dt => some dt
    | none => parseIsoPlain s.toList

/-! ## `get_media_date` (src/utils.py) -/

/-- `config.TARGET_YEAR` (src/config.py). -/
def TARGET_YEAR : Nat := 2025

/-- A media file as `get_media_date` observes it: its path, its basename,
and the outcomes of the three independent date probes.  `filename` stands
for `os.path.basename(filepath)`; `mtime` for
`datetime.fromtimestamp(os.path.getmtime(filepath))`. -/
structure MediaPath where
  filepath : String
  filename : String
  exif : ExifRead
  video : VideoProbe
  mtime : DT
deriving DecidableEq, Repr

/-- The metadata-date probe of `get_media_date`: dispatch on the lowercased
extension of the basename; image extensions read EXIF, video extensions read
the container tag, anything else leaves the metadata date absent (and the
`metadata_source` variable `None`). -/
def metadataDate (f : MediaPath) : Option DT × Option String :=
  let ext := extLower f.filename
  if ext ∈ [".jpg", ".jpeg", ".png", ".heic"] then
    (get_image_exif_date f.exif, some "exif")
  else if ext ∈ [".mp4", ".mov", ".avi", ".mkv"] then
    (get_video_metadata_date f.video, some "video_metadata")
  else (none, none)

/-- `get_media_date` (src/utils.py).  The five-way `if/elif` chain of the
source collapses by cases on which of the two candidate dates exist:
when both exist the four year-validity combinations are taken in the
source's order; when only the filename date exists every reachable branch
returns it with provenance `filename`; when only the metadata date exists
every reachable branch returns it with the metadata source tag; when
neither exists the file modification time is returned. -/
def get_media_date (f : MediaPath) (target_year : Option Nat := none) : DT × String :=
  let ty := target_year.getD TARGET_YEAR
  let dff := extract_date_from_filename f.filename
  let md := metadataDate f
  match dff, md.1 with
  | some d1, some d2 =>
    if d1.year = ty ∧ d2.year = ty then
      -- both valid for the target year: choose the OLDER one; tie → filename
      if DT.leb d1 d2 then (d1, "filename") else (d2, md.2.getD "")
    else if d1.year = ty then (d1, "filename")
    else if d2.year = ty then (d2, md.2.getD "")
    else (d1, "filename")
  | some d1, none => (d1, "filename")
  | none, some d2 => (d2, md.2.getD "")
  | none, none => (f.mtime, "file_mtime")

/-! ## Change detection (`detect_changes`, src/incremental_scan.py) -/

/-- A signature store: file path to `"<mtime>_<size>"` string, as a Python
dict (keys unique, insertion ordered). -/
abbrev SigDict := List (String × String)

/-- The key view of a dict. -/
def dictKeys (d : SigDict) : List String := d.map Prod.fst

/-- `d.get(key)`: first binding wins. -/
def dictGetS : SigDict → String → Option String
  | [], _ => none
  | (k, v) :: rest, key => if k = key then some v else dictGetS rest key

/-- `detect_changes` (src/incremental_scan.py): returns
`(new_files, changed_files, deleted_files)`; set difference and the
signature-comparison loop are modelled by key filtering. -/
def detect_changes (current_files previous_scan : SigDict) :
    List String × List String × List String :=
  let current_paths := dictKeys current_files
  let previous_paths := dictKeys previous_scan
  let new_files := current_paths.filter (fun p => !(previous_paths.contains p))
  let deleted_files := previous_paths.filter (fun p => !(current_paths.contains p))
  let changed_files := (current_paths.filter (fun p => previous_paths.contains p)).filter
    (fun p => dictGetS current_files p != dictGetS previous_scan p)
  (new_files, changed_files, deleted_files)

/-! ## Stable sort (Python `list.sort` is stable) -/

/-- Insert `x` after every element already `≤` it (stable insertion). -/
def insBy {α : Type} (le : α → α → Bool) (x : α) : List α → List α
  | [] => [x]
  | y :: ys => if le y x then y :: insBy le x ys else x :: y :: ys

/-- Stable insertion sort: processes elements left to right, placing each
after existing elements with equal or smaller key, as Python's stable
`list.sort` does. -/
def sortBy {α : Type} (le : α → α → Bool) (l : List α) : List α :=
  l.foldl (fun acc x => insBy le x acc) []

/-! ## Day assignment (`assign_media_to_days`, src/assign_media.py) -/

/-- `config.SUPPORTED_IMAGE_FORMATS`. -/
def SUPPORTED_IMAGE_FORMATS : List String := [".jpg", ".jpeg", ".png", ".heic", ".gif"]

/-- `config.SUPPORTED_VIDEO_FORMATS`. -/
def SUPPORTED_VIDEO_FORMATS : List String := [".mp4", ".mov", ".avi", ".mkv"]

/-- `is_image` (src/utils.py). -/
def is_image (filepath : String) : Bool := SUPPORTED_IMAGE_FORMATS.contains (extLower filepath)

/-- `is_video` (src/utils.py). -/
def is_video (filepath : String) : Bool := SUPPORTED_VIDEO_FORMATS.contains (extLower filepath)

/-- `is_gif` (src/utils.py). -/
def is_gif (filepath : String) : Bool := extLower filepath == ".gif"

/-- The media-type classification chain of `assign_media_to_days`. -/
def mediaType (filepath : String) : String :=
  if is_gif filepath then "gif"
  else if is_video filepath then "video"
  else if is_image filepath then "image"
  else "unknown"

/-- Zero-padded decimal numeral of width at least `width`. -/
def padNum (width n : Nat) : String :=
  let s := toString n
  String.mk (List.replicate (width - s.length) '0') ++ s

/-- `media_date.strftime("%Y-%m-%d")`. -/
def isoDateKey (d : DT) : String :=
  padNum 4 d.year ++ "-" ++ padNum 2 d.month ++ "-" ++ padNum 2 d.day

/-- One record of the assignment store:
`{filepath, filename, type, date, source}`.  The `date` field holds the
resolved datetime (persisted as `media_date.isoformat()`; for valid
datetimes the ISO string order used by the source's per-day sort coincides
with datetime order). -/
structure MediaRec where
  filepath : String
  filename : String
  mtype : String
  date : DT
  source : String
deriving DecidableEq, Repr

/-- The record appended for one accepted file. -/
def mkRec (f : MediaPath) (dt : DT) (src : String) : MediaRec :=
  ⟨f.filepath, f.filename, mediaType f.filepath, dt, src⟩

/-- The day-bucket store: ISO date key to record list, a Python
`defaultdict(list)` in insertion order. -/
abbrev DayBuckets := List (String × List MediaRec)

/-- `assignments[date_key].append(rec)` on a `defaultdict(list)`. -/
def bucketAdd : DayBuckets → String → MediaRec → DayBuckets
  | [], k, r => [(k, [r])]
  | (k', l) :: rest, k, r =>
    if k' = k then (k', l ++ [r]) :: rest else (k', l) :: bucketAdd rest k r

/-- Bucket lookup (first matching key). -/
def lookupBucket : DayBuckets → String → Option (List MediaRec)
  | [], _ => none
  | (k', l) :: rest, k => if k' = k then some l else lookupBucket rest k

/-- Bucket lookup defaulting to the empty list. -/
def lookupD (b : DayBuckets) (k : String) : List MediaRec :=
  (lookupBucket b k).getD []

/-- The key list of the bucket store. -/
def bucketKeys (b : DayBuckets) : List String := b.map Prod.fst

/-- Ordering of records by resolved timestamp (the source sorts each bucket
by the record's ISO datetime string, which orders valid datetimes
chronologically). -/
def recLeb (r s : MediaRec) : Bool := DT.leb r.date s.date

/-- The loop body of `assign_media_to_days`: resolve the file's date; skip
it when the resolved year is not the target year; otherwise append its
record to the bucket of its ISO date. -/
def assignStep (acc : DayBuckets) (f : MediaPath) : DayBuckets :=
  let r := get_media_date f none
  if r.1.year ≠ TARGET_YEAR then acc
  else bucketAdd acc (isoDateKey r.1) (mkRec f r.1 r.2)

/-- `assign_media_to_days` (src/assign_media.py): bucket every
target-year file under its ISO date, then sort each bucket by resolved
timestamp (stably). -/
def assign_media_to_days (media_files : List MediaPath) : DayBuckets :=
  let assignments := media_files.foldl assignStep []
  assignments.map (fun kv => (kv.1, sortBy recLeb kv.2))

/-- The records of day `d` in original scan order: one record per file of
the scan list whose resolved date has the target year and ISO date `d`.
(Specification-side description of a day's pre-sort bucket; proved to
characterise `assign_media_to_days`.) -/
def dayRecords (files : List MediaPath) (d : String) : List MediaRec :=
  files.filterMap (fun f =>
    let r := get_media_date f none
    if r.1.year = TARGET_YEAR ∧ isoDateKey r.1 = d then some (mkRec f r.1 r.2) else none)

/-! ## Checkpoint manager (src/checkpoint.py) -/

/-- A value of the `steps_completed` JSON dictionary: the two phase flags
are booleans, `months_processed` is a list of month numbers. -/
inductive StepVal
  | b (v : Bool)
  | months (l : List Nat)
deriving DecidableEq, Repr

/-- The `steps_completed` dictionary. -/
abbrev StepsDict := List (String × StepVal)

/-- Dict lookup (first binding). -/
def stepsGet : StepsDict → String → Option StepVal
  | [], _ => none
  | (k', v) :: rest, k => if k' = k then some v else stepsGet rest k

/-- Dict assignment: overwrite the existing binding, else append. -/
def stepsSet : StepsDict → String → StepVal → StepsDict
  | [], k, v => [(k, v)]
  | (k', v') :: rest, k, v =>
    if k' = k then (k, v) :: rest else (k', v') :: stepsSet rest k v

/-- The checkpoint JSON document (the `last_update` timestamp carries no
behaviour and is not modelled). -/
structure CheckpointData where
  steps : StepsDict
  completed : Bool
deriving DecidableEq, Repr

/-- `_create_empty_checkpoint`. -/
def emptyCheckpoint : CheckpointData :=
  ⟨[("media_scan", .b false), ("media_assignment", .b false),
    ("months_processed", .months [])], false⟩

/-- A well-formed checkpoint document. -/
def mkCkpt (scan assign : Bool) (months : List Nat) (completed : Bool) : CheckpointData :=
  ⟨[("media_scan", .b scan), ("media_assignment", .b assign),
    ("months_processed", .months months)], completed⟩

/-- A checkpoint manager: in-memory document plus the persisted file
(`none` = file absent or unreadable, both of which `_load` turns into the
empty checkpoint). -/
structure CkptState where
  mem : CheckpointData
  disk : Option CheckpointData
deriving DecidableEq, Repr

/-- `CheckpointManager._load`. -/
def ckptLoad : Option CheckpointData → CheckpointData
  | none => emptyCheckpoint
  | some d => d

/-- Python truthiness of a `steps_completed` value (`is_step_complete`
returns the raw dict value, consumed in boolean contexts). -/
def truthy : StepVal → Bool
  | .b v => v
  | .months l => !l.isEmpty

/-- `is_step_complete`: `steps_completed.get(step_name, False)`. -/
def is_step_complete (step_name : String) (d : CheckpointData) : Bool :=
  match stepsGet d.steps step_name with
  | some v => truthy v
  | none => false

/-- `mark_step_complete` (src/checkpoint.py): only an existing key of
`steps_completed` is set to `True` and persisted; an unknown step name does
nothing at all. -/
def mark_step_complete (step_name : String) (st : CkptState) : CkptState :=
  match stepsGet st.mem.steps step_name with
  | some _ =>
    let mem' := { st.mem with steps := stepsSet st.mem.steps step_name (.b true) }
    ⟨mem', some mem'⟩
  | none => st

/-- The `months_processed` list; `none` models the `KeyError`/`TypeError`
Python would raise when the key is missing or holds a non-list. -/
def monthsOf (d : CheckpointData) : Option (List Nat) :=
  match stepsGet d.steps "months_processed" with
  | some (.months l) => some l
  | _ => none

/-- `≤` on month numbers (Python `list.sort`). -/
def natLeb (a b : Nat) : Bool := a ≤ b

/-- `mark_month_complete` (src/checkpoint.py): append the month if absent,
re-sort, persist; a month already present changes nothing and does not
save. -/
def mark_month_complete (month : Nat) (st : CkptState) : Option CkptState :=
  match monthsOf st.mem with
  | none => none
  | some months =>
    if month ∈ months then some st
    else
      let mem' := { st.mem with
        steps := stepsSet st.mem.steps "months_processed"
          (.months (sortBy natLeb (months ++ [month]))) }
      some ⟨mem', some mem'⟩

/-- `is_month_complete`: membership in `months_processed`. -/
def is_month_complete (month : Nat) (d : CheckpointData) : Option Bool :=
  (monthsOf d).map (fun months => decide (month ∈ months))

/-- Python `list.remove`: drop the first occurrence. -/
def removeFirst : List Nat → Nat → List Nat
  | [], _ => []
  | x :: xs, m => if x = m then xs else x :: removeFirst xs m

/-- `invalidate_month` (src/checkpoint.py): remove the month if present and
persist; otherwise do nothing. -/
def invalidate_month (month : Nat) (st : CkptState) : Option CkptState :=
  match monthsOf st.mem with
  | none => none
  | some months =>
    if month ∈ months then
      let mem' := { st.mem with
        steps := stepsSet st.mem.steps "months_processed"
          (.months (removeFirst months month)) }
      some ⟨mem', some mem'⟩
    else some st

/-! ## Month-rendering loop (`generate_optimized`, src/generate_optimized.py) -/

/-- The per-month loop of `generate_optimized`, over the months still to
process.  `outExists m` models `os.path.exists(month_output)` for month `m`;
`hasMedia m` models whether `generate_month_video` finds any day of month
`m` with media (it returns `None` otherwise).  The first component of the
result lists the months for which `generate_month_video` was invoked; a
month is skipped exactly when the checkpoint already marks it complete and
its output file exists. -/
def genMonths (outExists hasMedia : Nat → Bool) :
    CkptState → List Nat → Option (List Nat × CkptState)
  | st, [] => some ([], st)
  | st, m :: ms =>
    match is_month_complete m st.mem with
    | none => none
    | some complete =>
      if complete && outExists m then
        genMonths outExists hasMedia st ms
      else if hasMedia m then
        match mark_month_complete m st with
        | none => none
        | some st' =>
          match genMonths outExists hasMedia st' ms with
          | none => none
          | some (ren, stF) => some (m :: ren, stF)
      else
        match genMonths outExists hasMedia st ms with
        | none => none
        | some (ren, stF) => some (m :: ren, stF)

/-- The month loop of `generate_optimized` runs over months 1..12 in
order. -/
def generate_optimized_months (outExists hasMedia : Nat → Bool) (st : CkptState) :
    Option (List Nat × CkptState) :=
  genMonths outExists hasMedia st ((List.range 12).map (· + 1))

/-! ## Incremental assignment update (`update_media_assignments`,
src/generate_recap_optimized.py) -/

/-- The inputs `update_media_assignments` observes: checkpoint state, the
current folder scan (path to signature), the loaded previous scan cache and
whether the assignment JSON exists. -/
structure PipelineEnv where
  ckpt : CkptState
  currentFiles : SigDict
  previousScan : SigDict
  assignmentJsonExists : Bool

/-- `new_files | changed_files` from `incremental_media_scan`. -/
def filesToProcess (env : PipelineEnv) : List String :=
  let r := detect_changes env.currentFiles env.previousScan
  r.1 ++ r.2.1

/-- `update_media_assignments` (src/generate_recap_optimized.py).  The
first component records the file paths on which `get_media_date` is invoked
during the call: none when both checkpoint steps are already complete, none
when nothing changed and the assignment JSON exists, and otherwise — the
source re-runs `assign_media_to_days(all_files)` — every currently scanned
file.  The second component is the function's return value, the third the
resulting checkpoint state. -/
def update_media_assignments (env : PipelineEnv) : List String × Bool × CkptState :=
  if is_step_complete "media_scan" env.ckpt.mem
      && is_step_complete "media_assignment" env.ckpt.mem then
    ([], false, env.ckpt)
  else
    let ftp := filesToProcess env
    let ck1 := mark_step_complete "media_scan" env.ckpt
    if ftp.isEmpty && env.assignmentJsonExists then
      ([], false, mark_step_complete "media_assignment" ck1)
    else
      (dictKeys env.currentFiles, true, mark_step_complete "media_assignment" ck1)

/-! ## Rendered-clip cache (`get_processed_clips` / `should_process_clip`,
src/generate_optimized.py) -/

/-- Dict assignment with string values (overwrite or append). -/
def dictSetS : SigDict → String → String → SigDict
  | [], k, v => [(k, v)]
  | (k', v') :: rest, k, v =>
    if k' = k then (k, v) :: rest else (k', v') :: dictSetS rest k v

/-- Does `s` begin with `lead`?  (`str.startswith`, written out structurally
so that it evaluates by kernel reduction.) -/
def hasLead : List Char → List Char → Bool
  | _, [] => true
  | [], _ :: _ => false
  | c :: s, p :: ps => c == p && hasLead s ps

/-- `s.startswith(w)`. -/
def strStartsWith (s w : String) : Bool := hasLead s.toList w.toList

/-- `s.endswith(w)`. -/
def strEndsWith (s w : String) : Bool := hasLead s.toList.reverse w.toList.reverse

/-- Everything after the first underscore
(`'_'.join(filename.split('_')[1:])` when an underscore is present). -/
def afterFirstUnderscore : List Char → List Char
  | [] => []
  | c :: t => if c = '_' then t else afterFirstUnderscore t

/-- `s.replace(".mp4", "")`: drop every non-overlapping occurrence of
`".mp4"`, scanning left to right. -/
def removeMp4 : List Char → List Char
  | '.' :: 'm' :: 'p' :: '4' :: rest => removeMp4 rest
  | c :: rest => c :: removeMp4 rest
  | [] => []

/-- The base name `get_processed_clips` reverse-derives from a directory
entry: everything after the first underscore, with every occurrence of
`".mp4"` removed. -/
def derivedOriginalName (entry : String) : String :=
  String.mk (removeMp4 (afterFirstUnderscore entry.toList))

/-- The loop body of `get_processed_clips`: a `.mp4` entry that is not a
`separator_` artifact and contains an underscore maps its derived original
name to the entry's full path (later entries overwrite earlier ones). -/
def clipStep (folder : String) (processed : SigDict) (filename : String) : SigDict :=
  if strEndsWith filename ".mp4" && !(strStartsWith filename "separator_") then
    if filename.toList.contains '_' then
      dictSetS processed (derivedOriginalName filename) (folder ++ "/" ++ filename)
    else processed
  else processed

/-- `get_processed_clips` (src/generate_optimized.py): fold over the
rendered-output directory listing. -/
def get_processed_clips (folder : String) (listing : List String) : SigDict :=
  listing.foldl (clipStep folder) []

/-- `os.path.splitext(name)[0]`: the name with its extension removed. -/
def splitextStem (name : String) : String :=
  let l := name.toList
  String.mk (l.take (l.length - (extSplit (afterLastSlash l)).length))

/-- `should_process_clip` (src/generate_optimized.py): `False` (skip) only
when the cache maps the media file's stem to a path that still exists on
disk; a missing mapping, or a mapped path that no longer exists, yields
`True` (process). -/
def should_process_clip (filename : String) (processed_clips : SigDict)
    (pathExists : String → Bool) : Bool :=
  let filename_base := splitextStem filename
  match dictGetS processed_clips filename_base with
  | some processed_path => if pathExists processed_path then false else true
  | none => true

/-- The per-item cache consultation inside `generate_month_video`
(src/generate_optimized.py, the `if filename_base in processed_clips_cache`
branch): on a cache hit the mapped path is reused as-is; only on a miss is
`process_media_file` invoked.  `pathExists` models the disk state at that
moment; the source consults no existence check on this path, so the result
does not depend on it (the existence guard exists only in
`should_process_clip`, which no code calls).  `rendered` stands for the
result `process_media_file` would return (`none` on failure).  The second
component records whether the render step was invoked. -/
def generate_month_video_clip (filename : String) (cache : SigDict)
    (pathExists : String → Bool) (rendered : Option String) :
    Option String × Bool :=
  match dictGetS cache (splitextStem filename) with
  | some processed_clip => (some processed_clip, false)
  | none => (rendered, true)

/-- The entry shape asserted by the cache-contract claim: a non-empty
numeric lead, an underscore, the base name, `".mp4"`. -/
def numericLeadEntry (base entry : String) : Bool :=
  let suffix := "_" ++ base ++ ".mp4"
  strEndsWith entry suffix &&
    (let lead := entry.toList.take (entry.toList.length - suffix.toList.length)
     !lead.isEmpty && lead.all isDig)

/-- The entry shape the source actually accepts for base name `base`: a
non-separator `.mp4` entry containing an underscore whose derived original
name is `base`. -/
def clipEntryMatches (base entry : String) : Bool :=
  strEndsWith entry ".mp4" && !(strStartsWith entry "separator_") &&
    entry.toList.contains '_' && decide (derivedOriginalName entry = base)

/-! # Theorems

Order lemmas, generic facts about the stable insertion sort, and the
claim theorems with their witnesses. -/

theorem lexLeb_refl (l : List Nat) : lexLeb l l = true := by
  induction l with
  | nil => rfl
  | cons a as ih => simp [lexLeb, ih]

theorem lexLeb_cons_iff {a b : Nat} {as bs : List Nat} :
    lexLeb (a :: as) (b :: bs) = true ↔ a < b ∨ (a = b ∧ lexLeb as bs = true) := by
  simp only [lexLeb]
  split_ifs with h1 h2
  · simp [h1]
  · constructor
    · intro h; simp at h
    · rintro (h | ⟨rfl, _⟩) <;> omega
  · have hab : a = b := by omega
    subst hab
    simp [h1]

theorem lexLeb_total (l m : List Nat) : lexLeb l m = true ∨ lexLeb m l = true := by
  induction l generalizing m with
  | nil => left; rfl
  | cons a as ih =>
    cases m with
    | nil => right; rfl
    | cons b bs =>
      rw [lexLeb_cons_iff, lexLeb_cons_iff]
      rcases Nat.lt_trichotomy a b with h | h | h
      · exact Or.inl (Or.inl h)
      · subst h
        rcases ih bs with h' | h'
        · exact Or.inl (Or.inr ⟨rfl, h'⟩)
        · exact Or.inr (Or.inr ⟨rfl, h'⟩)
      · exact Or.inr (Or.inl h)

theorem lexLeb_trans {l m n : List Nat} (h1 : lexLeb l m = true)
    (h2 : lexLeb m n = true) : lexLeb l n = true := by
  induction l generalizing m n with
  | nil => rfl
  | cons a as ih =>
    cases m with
    | nil => simp [lexLeb] at h1
    | cons b bs =>
      cases n with
      | nil => simp [lexLeb] at h2
      | cons c cs =>
        rw [lexLeb_cons_iff] at h1 h2 ⊢
        rcases h1 with h1 | ⟨rfl, h1⟩
        · rcases h2 with h2 | ⟨rfl, h2⟩
          · exact Or.inl (Nat.lt_trans h1 h2)
          · exact Or.inl h1
        · rcases h2 with h2 | ⟨rfl, h2⟩
          · exact Or.inl h2
          · exact Or.inr ⟨rfl, ih h1 h2⟩

theorem DT.leb_refl (a : DT) : DT.leb a a = true := lexLeb_refl _

theorem DT.leb_total (a b : DT) : DT.leb a b = true ∨ DT.leb b a = true :=
  lexLeb_total _ _

theorem DT.leb_trans {a b c : DT} (h1 : DT.leb a b = true)
    (h2 : DT.leb b c = true) : DT.leb a c = true :=
  lexLeb_trans h1 h2

/-! ## Stable-sort lemmas -/

theorem mem_insBy {α : Type} {le : α → α → Bool} {x a : α} {l : List α} :
    a ∈ insBy le x l ↔ a = x ∨ a ∈ l := by
  induction l with
  | nil => simp [insBy]
  | cons y ys ih =>
    simp only [insBy]
    split_ifs with h
    · rw [List.mem_cons, ih, List.mem_cons]
      tauto
    · simp [List.mem_cons]

theorem perm_insBy {α : Type} (le : α → α → Bool) (x : α) (l : List α) :
    List.Perm (insBy le x l) (x :: l) := by
  induction l with
  | nil => simp [insBy]
  | cons y ys ih =>
    simp only [insBy]
    split_ifs with h
    · exact (ih.cons y).trans (List.Perm.swap x y ys)
    · rfl

theorem perm_foldl_insBy {α : Type} (le : α → α → Bool) :
    ∀ (l acc : List α),
      List.Perm (l.foldl (fun a x => insBy le x a) acc) (acc ++ l)
  | [], acc => by simp
  | x :: l, acc => by
    have h1 := perm_foldl_insBy le l (insBy le x acc)
    have h2 : List.Perm (insBy le x acc ++ l) ((x :: acc) ++ l) :=
      (perm_insBy le x acc).append_right l
    refine (h1.trans (h2.trans ?_))
    simpa using List.perm_middle.symm

theorem perm_sortBy {α : Type} (le : α → α → Bool) (l : List α) :
    List.Perm (sortBy le l) l := by
  simpa [sortBy] using perm_foldl_insBy le l []

theorem pairwise_insBy {α : Type} {le : α → α → Bool}
    (htot : ∀ a b, le a b = true ∨ le b a = true)
    (htrans : ∀ {a b c}, le a b = true → le b c = true → le a c = true)
    {x : α} {l : List α} (h : l.Pairwise (fun a b => le a b = true)) :
    (insBy le x l).Pairwise (fun a b => le a b = true) := by
  induction l with
  | nil => simp [insBy]
  | cons y ys ih =>
    rcases h with - | ⟨hy, hys⟩
    simp only [insBy]
    split_ifs with hle
    · refine List.Pairwise.cons ?_ (ih hys)
      intro a ha
      rcases mem_insBy.mp ha with rfl | ha
      · exact hle
      · exact hy a ha
    · have hxy : le x y = true := (htot x y).resolve_right (by simpa using hle)
      refine List.Pairwise.cons ?_ (List.Pairwise.cons hy hys)
      intro a ha
      rcases List.mem_cons.mp ha with rfl | ha
      · exact hxy
      · exact htrans hxy (hy a ha)

theorem pairwise_foldl_insBy {α : Type} {le : α → α → Bool}
    (htot : ∀ a b, le a b = true ∨ le b a = true)
    (htrans : ∀ {a b c}, le a b = true → le b c = true → le a c = true) :
    ∀ (l acc : List α), acc.Pairwise (fun a b => le a b = true) →
      (l.foldl (fun a x => insBy le x a) acc).Pairwise (fun a b => le a b = true)
  | [], _, h => h
  | x :: l, acc, h =>
    pairwise_foldl_insBy htot htrans l (insBy le x acc) (pairwise_insBy htot htrans h)

theorem pairwise_sortBy {α : Type} {le : α → α → Bool}
    (htot : ∀ a b, le a b = true ∨ le b a = true)
    (htrans : ∀ {a b c}, le a b = true → le b c = true → le a c = true)
    (l : List α) : (sortBy le l).Pairwise (fun a b => le a b = true) :=
  pairwise_foldl_insBy htot htrans l [] (List.Pairwise.nil)

theorem filter_insBy {α : Type} {le : α → α → Bool} {p : α → Bool}
    (hcls : ∀ a b, p a = true → p b = true → le a b = true)
    (htrans : ∀ {a b c}, le a b = true → le b c = true → le a c = true)
    {x : α} {l : List α} (hs : l.Pairwise (fun a b => le a b = true)) :
    (insBy le x l).filter p = if p x then l.filter p ++ [x] else l.filter p := by
  induction l with
  | nil => cases hpx : p x <;> simp [insBy, hpx]
  | cons y ys ih =>
    rcases hs with - | ⟨hy, hys⟩
    by_cases hle : le y x = true
    · rw [show insBy le x (y :: ys) = y :: insBy le x ys by simp [insBy, hle]]
      cases hpx : p x <;> cases hpy : p y <;>
        simp [List.filter_cons, hpx, hpy, ih hys]
    · rw [show insBy le x (y :: ys) = x :: y :: ys by simp [insBy, hle]]
      cases hpx : p x
      · simp [List.filter_cons, hpx]
      · have hfil : (y :: ys).filter p = [] := by
          rw [List.filter_eq_nil_iff]
          intro a ha
          rcases List.mem_cons.mp ha with rfl | ha
          · intro hc
            exact hle (hcls a x (by simpa using hc) hpx)
          · intro hc
            exact hle (htrans (hy a ha) (hcls a x (by simpa using hc) hpx))
        simp [List.filter_cons, hpx, hfil]

theorem filter_foldl_insBy {α : Type} {le : α → α → Bool} {p : α → Bool}
    (hcls : ∀ a b, p a = true → p b = true → le a b = true)
    (htot : ∀ a b, le a b = true ∨ le b a = true)
    (htrans : ∀ {a b c}, le a b = true → le b c = true → le a c = true) :
    ∀ (l acc : List α), acc.Pairwise (fun a b => le a b = true) →
      (l.foldl (fun a x => insBy le x a) acc).filter p
        = acc.filter p ++ l.filter p
  | [], acc, _ => by simp
  | x :: l, acc, h => by
    have ih := filter_foldl_insBy hcls htot htrans l (insBy le x acc)
      (pairwise_insBy htot htrans h)
    rw [List.foldl_cons, ih, filter_insBy hcls htrans h]
    cases hpx : p x <;> simp [List.filter_cons, hpx]

theorem filter_sortBy {α : Type} {le : α → α → Bool} {p : α → Bool}
    (hcls : ∀ a b, p a = true → p b = true → le a b = true)
    (htot : ∀ a b, le a b = true ∨ le b a = true)
    (htrans : ∀ {a b c}, le a b = true → le b c = true → le a c = true)
    (l : List α) : (sortBy le l).filter p = l.filter p := by
  simpa [sortBy] using filter_foldl_insBy hcls htot htrans l [] List.Pairwise.nil

/-! ## Claim C2 — filename pattern priority -/

/-- C2: for a filename whose leftmost `YYYYMMDD_HHMMSS` occurrence parses
with year in [2000, 2030], `extract_date_from_filename` returns exactly
that date and time, and later patterns are not consulted; when pattern 1's
year is out of range the pattern yields nothing and the 8-digit and
`YYYY-MM-DD` patterns are tried, in that order, under the same year
rule. -/
theorem extract_pattern_priority (s : String) :
    (∀ ds ts y mo d h mi sec,
      searchP1 s.toList = some (ds, ts) →
      parseYMD ds = some (y, mo, d) →
      parseHMS ts = some (h, mi, sec) →
      2000 ≤ y → y ≤ 2030 →
      extract_date_from_filename s = some ⟨y, mo, d, h, mi, sec, 0⟩) ∧
    (∀ ds ts y mo d h mi sec,
      searchP1 s.toList = some (ds, ts) →
      parseYMD ds = some (y, mo, d) →
      parseHMS ts = some (h, mi, sec) →
      ¬(2000 ≤ y ∧ y ≤ 2030) →
      extract_date_from_filename s = fallback23 s.toList) ∧
    (∀ ds y mo d,
      tryPattern1 s.toList = none →
      searchP2 s.toList = some ds →
      parseYMD ds = some (y, mo, d) →
      2000 ≤ y → y ≤ 2030 →
      extract_date_from_filename s = some ⟨y, mo, d, 0, 0, 0, 0⟩) ∧
    (∀ ds y mo d,
      tryPattern1 s.toList = none →
      searchP2 s.toList = some ds →
      parseYMD ds = some (y, mo, d) →
      ¬(2000 ≤ y ∧ y ≤ 2030) →
      extract_date_from_filename s = tryPattern3 s.toList) := by
  refine ⟨?_, ?_, ?_, ?_⟩
  · intro ds ts y mo d h mi sec h1 h2 h3 hy1 hy2
    simp only [extract_date_from_filename, tryPattern1, h1, h2, h3]
    rw [if_pos ⟨hy1, hy2⟩]
  · intro ds ts y mo d h mi sec h1 h2 h3 hy
    simp only [extract_date_from_filename, tryPattern1, h1, h2, h3]
    rw [if_neg hy]
  · intro ds y mo d hp1 h2 h3 hy1 hy2
    simp only [extract_date_from_filename, hp1, fallback23, tryPattern2, h2, h3]
    rw [if_pos ⟨hy1, hy2⟩]
  · intro ds y mo d hp1 h2 h3 hy
    simp only [extract_date_from_filename, hp1, fallback23, tryPattern2, h2, h3]
    rw [if_neg hy]

/-- Witness for C2 at `20250102_161334.jpg`. -/
theorem extract_pattern_priority_witness :
    extract_date_from_filename "20250102_161334.jpg"
      = some ⟨2025, 1, 2, 16, 13, 34, 0⟩ :=
  (extract_pattern_priority "20250102_161334.jpg").1
    "20250102".toList "161334".toList 2025 1 2 16 13 34
    (by decide) (by decide) (by decide) (by decide) (by decide)

/-! ## Claim C1 — both dates valid for the target year -/

/-- C1: when both the filename-derived date and the metadata date exist and
both fall in the target year, `get_media_date` returns the chronologically
earlier of the two; on a tie, or whenever the filename date is `≤` the
metadata date, the result is the filename date with provenance
`filename`. -/
theorem get_media_date_both_valid (f : MediaPath) (ty : Nat) (d1 d2 : DT)
    (hf : extract_date_from_filename f.filename = some d1)
    (hm : (metadataDate f).1 = some d2)
    (hy1 : d1.year = ty) (hy2 : d2.year = ty) :
    (d1 = d2 → get_media_date f (some ty) = (d1, "filename")) ∧
    (DT.leb d1 d2 = true → get_media_date f (some ty) = (d1, "filename")) ∧
    (DT.leb d1 d2 = false →
      get_media_date f (some ty) = (d2, (metadataDate f).2.getD "")) ∧
    ((get_media_date f (some ty)).1 = d1 ∨ (get_media_date f (some ty)).1 = d2) ∧
    DT.leb (get_media_date f (some ty)).1 d1 = true ∧
    DT.leb (get_media_date f (some ty)).1 d2 = true := by
  cases hleb : DT.leb d1 d2
  · have hle21 : DT.leb d2 d1 = true := (DT.leb_total d1 d2).resolve_left (by simp [hleb])
    have hr : get_media_date f (some ty) = (d2, (metadataDate f).2.getD "") := by
      simp [get_media_date, hf, hm, hy1, hy2, hleb]
    refine ⟨?_, ?_, fun _ => hr, Or.inr (by rw [hr]),
      by rw [hr]; exact hle21, by rw [hr]; exact DT.leb_refl d2⟩
    · rintro rfl
      exact absurd hleb (by simp [DT.leb_refl])
    · intro h
      exact absurd h (by simp [hleb])
  · have hr : get_media_date f (some ty) = (d1, "filename") := by
      simp [get_media_date, hf, hm, hy1, hy2, hleb]
    refine ⟨fun _ => hr, fun _ => hr, ?_, Or.inl (by rw [hr]),
      by rw [hr]; exact DT.leb_refl d1, by rw [hr]; exact hleb⟩
    intro h
    exact absurd h (by simp [hleb])

/-- Witness for C1: equal filename and EXIF timestamps; the tie goes to
provenance `filename`. -/
theorem get_media_date_both_valid_witness :
    get_media_date
      ⟨"/in/a_20250102_161334.jpg", "a_20250102_161334.jpg",
        .tags [("EXIF DateTimeOriginal", "2025:01:02 16:13:34")], .err,
        ⟨2024, 1, 1, 0, 0, 0, 0⟩⟩ (some 2025)
      = (⟨2025, 1, 2, 16, 13, 34, 0⟩, "filename") :=
  (get_media_date_both_valid
      ⟨"/in/a_20250102_161334.jpg", "a_20250102_161334.jpg",
        .tags [("EXIF DateTimeOriginal", "2025:01:02 16:13:34")], .err,
        ⟨2024, 1, 1, 0, 0, 0, 0⟩⟩ 2025
      ⟨2025, 1, 2, 16, 13, 34, 0⟩ ⟨2025, 1, 2, 16, 13, 34, 0⟩
      (by decide) (by decide) rfl rfl).1 rfl

/-! ## Claim C3 — resolution is total, failures are swallowed -/

/-- C3: `get_media_date` always yields a (date, provenance) pair; a failed
EXIF or container-metadata read is swallowed into "metadata date absent";
and when neither a filename date nor a metadata date exists, the file
modification time is returned with the `file_mtime` tag. -/
theorem get_media_date_never_fails (f : MediaPath) (ty : Option Nat) :
    (∃ d s, get_media_date f ty = (d, s)) ∧
    get_image_exif_date .err = none ∧
    get_video_metadata_date .err = none ∧
    (extract_date_from_filename f.filename = none → (metadataDate f).1 = none →
      get_media_date f ty = (f.mtime, "file_mtime")) ∧
    (f.exif = .err → f.video = .err → extract_date_from_filename f.filename = none →
      get_media_date f ty = (f.mtime, "file_mtime")) := by
  have hmt : ∀ (hf : extract_date_from_filename f.filename = none)
      (hm : (metadataDate f).1 = none), get_media_date f ty = (f.mtime, "file_mtime") := by
    intro hf hm
    simp [get_media_date, hf, hm]
  refine ⟨⟨_, _, rfl⟩, rfl, rfl, hmt, ?_⟩
  intro hexif hvid hf
  have hm : (metadataDate f).1 = none := by
    simp only [metadataDate]
    split_ifs <;> simp [hexif, hvid, get_image_exif_date, get_video_metadata_date]
  exact hmt hf hm

/-- Witness for C3: a `.jpg` with no filename date and an unreadable EXIF
table resolves to its modification time. -/
theorem get_media_date_never_fails_witness :
    get_media_date ⟨"/in/picture.jpg", "picture.jpg", .err, .err,
        ⟨2024, 5, 1, 12, 0, 0, 0⟩⟩ none
      = (⟨2024, 5, 1, 12, 0, 0, 0⟩, "file_mtime") :=
  (get_media_date_never_fails
      ⟨"/in/picture.jpg", "picture.jpg", .err, .err, ⟨2024, 5, 1, 12, 0, 0, 0⟩⟩
      none).2.2.2.2 rfl rfl (by decide)

/-! ## Claim C4 — change-detection sets -/

/-- C4: `detect_changes` classifies exactly: `new` = current paths absent
previously, `deleted` = previous paths absent now, `changed` = paths in both
with differing signatures; `new` is disjoint from `changed` and from
`deleted`, and a current path outside `new ∪ changed` has an identical
signature in the previous store. -/
theorem detect_changes_spec (current previous : SigDict) (p : String) :
    (p ∈ (detect_changes current previous).1 ↔
      p ∈ dictKeys current ∧ p ∉ dictKeys previous) ∧
    (p ∈ (detect_changes current previous).2.2 ↔
      p ∈ dictKeys previous ∧ p ∉ dictKeys current) ∧
    (p ∈ (detect_changes current previous).2.1 ↔
      p ∈ dictKeys current ∧ p ∈ dictKeys previous ∧
        dictGetS current p ≠ dictGetS previous p) ∧
    (p ∈ (detect_changes current previous).1 →
      p ∉ (detect_changes current previous).2.1) ∧
    (p ∈ (detect_changes current previous).1 →
      p ∉ (detect_changes current previous).2.2) ∧
    (p ∈ dictKeys current → p ∉ (detect_changes current previous).1 →
      p ∉ (detect_changes current previous).2.1 →
      dictGetS current p = dictGetS previous p) := by
  have hnew : p ∈ (detect_changes current previous).1 ↔
      p ∈ dictKeys current ∧ p ∉ dictKeys previous := by
    simp [detect_changes, List.mem_filter, List.elem_iff]
  have hdel : p ∈ (detect_changes current previous).2.2 ↔
      p ∈ dictKeys previous ∧ p ∉ dictKeys current := by
    simp [detect_changes, List.mem_filter, List.elem_iff]
  have hchg : p ∈ (detect_changes current previous).2.1 ↔
      p ∈ dictKeys current ∧ p ∈ dictKeys previous ∧
        dictGetS current p ≠ dictGetS previous p := by
    simp [detect_changes, List.mem_filter, List.elem_iff, and_assoc,
      bne_iff_ne]
    tauto
  refine ⟨hnew, hdel, hchg, ?_, ?_, ?_⟩
  · intro h1 h2
    exact (hnew.mp h1).2 (hchg.mp h2).2.1
  · intro h1 h2
    exact (hnew.mp h1).2 (hdel.mp h2).1
  · intro hc h1 h2
    by_contra hne
    by_cases hprev : p ∈ dictKeys previous
    · exact h2 (hchg.mpr ⟨hc, hprev, hne⟩)
    · exact h1 (hnew.mpr ⟨hc, hprev⟩)

/-- Witness for C4 on a concrete pair of stores: path `"b"` is new, hence
not changed. -/
theorem detect_changes_spec_witness :
    "b" ∈ (detect_changes [("a", "1"), ("b", "2")] [("a", "0"), ("c", "3")]).1 ∧
    "b" ∉ (detect_changes [("a", "1"), ("b", "2")] [("a", "0"), ("c", "3")]).2.1 := by
  have h := detect_changes_spec [("a", "1"), ("b", "2")] [("a", "0"), ("c", "3")] "b"
  have hb : "b" ∈ (detect_changes [("a", "1"), ("b", "2")] [("a", "0"), ("c", "3")]).1 :=
    h.1.mpr (by decide)
  exact ⟨hb, h.2.2.2.1 hb⟩

/-! ## Bucket-store lemmas -/

theorem lookupD_bucketAdd (b : DayBuckets) (k : String) (r : MediaRec) (d : String) :
    lookupD (bucketAdd b k r) d = if d = k then lookupD b d ++ [r] else lookupD b d := by
  induction b with
  | nil =>
    rcases eq_or_ne d k with h | h
    · subst h
      simp [bucketAdd, lookupD, lookupBucket]
    · simp [bucketAdd, lookupD, lookupBucket, h, Ne.symm h]
  | cons hd tl ih =>
    obtain ⟨k', l⟩ := hd
    by_cases hk : k' = k
    · subst hk
      rcases eq_or_ne d k' with h | h
      · subst h
        simp [bucketAdd, lookupD, lookupBucket]
      · simp [bucketAdd, lookupD, lookupBucket, h, Ne.symm h]
    · rcases eq_or_ne d k' with h | h
      · subst h
        have hdk : d ≠ k := hk
        simp [bucketAdd, lookupD, lookupBucket, hdk]
      · simp only [bucketAdd, if_neg hk, lookupD, lookupBucket, if_neg (Ne.symm h)]
        simpa [lookupD] using ih

theorem bucketKeys_cons (k : String) (l : List MediaRec) (t : DayBuckets) :
    bucketKeys ((k, l) :: t) = k :: bucketKeys t := rfl

theorem mem_bucketKeys_bucketAdd {b : DayBuckets} {k d : String} {r : MediaRec} :
    d ∈ bucketKeys (bucketAdd b k r) ↔ d = k ∨ d ∈ bucketKeys b := by
  induction b with
  | nil => simp [bucketAdd, bucketKeys]
  | cons hd tl ih =>
    obtain ⟨k', l⟩ := hd
    by_cases hk : k' = k
    · subst hk
      rw [show bucketAdd ((k', l) :: tl) k' r = (k', l ++ [r]) :: tl from by
        simp [bucketAdd]]
      rw [bucketKeys_cons, bucketKeys_cons]
      simp only [List.mem_cons]
      tauto
    · rw [show bucketAdd ((k', l) :: tl) k r = (k', l) :: bucketAdd tl k r from by
        simp [bucketAdd, hk]]
      rw [bucketKeys_cons, bucketKeys_cons]
      simp only [List.mem_cons]
      rw [ih]
      tauto

theorem nodup_bucketKeys_bucketAdd {b : DayBuckets} {k : String} {r : MediaRec}
    (h : (bucketKeys b).Nodup) : (bucketKeys (bucketAdd b k r)).Nodup := by
  induction b with
  | nil => simp [bucketAdd, bucketKeys]
  | cons hd tl ih =>
    obtain ⟨k', l⟩ := hd
    rw [bucketKeys_cons, List.nodup_cons] at h
    obtain ⟨hnotin, htl⟩ := h
    by_cases hk : k' = k
    · subst hk
      rw [show bucketAdd ((k', l) :: tl) k' r = (k', l ++ [r]) :: tl from by
        simp [bucketAdd]]
      rw [bucketKeys_cons, List.nodup_cons]
      exact ⟨hnotin, htl⟩
    · rw [show bucketAdd ((k', l) :: tl) k r = (k', l) :: bucketAdd tl k r from by
        simp [bucketAdd, hk]]
      rw [bucketKeys_cons, List.nodup_cons]
      refine ⟨?_, ih htl⟩
      intro hc
      rcases mem_bucketKeys_bucketAdd.mp hc with h1 | h1
      · exact hk h1
      · exact hnotin h1

theorem lookup_of_mem_pair {b : DayBuckets} {d : String} {l : List MediaRec}
    (hmem : (d, l) ∈ b) (hnd : (bucketKeys b).Nodup) : lookupBucket b d = some l := by
  induction b with
  | nil => cases hmem
  | cons hd tl ih =>
    obtain ⟨k', l'⟩ := hd
    simp only [bucketKeys, List.map_cons, List.nodup_cons] at hnd
    rcases List.mem_cons.mp hmem with heq | htl
    · injection heq with h1 h2
      subst h1
      subst h2
      simp [lookupBucket]
    · have hd_ne : k' ≠ d := by
        intro he
        subst he
        exact hnd.1 (List.mem_map_of_mem Prod.fst htl)
      simp only [lookupBucket, if_neg hd_ne]
      exact ih htl hnd.2

theorem assignStep_eq (acc : DayBuckets) (f : MediaPath) :
    assignStep acc f =
      if (get_media_date f none).1.year = TARGET_YEAR
      then bucketAdd acc (isoDateKey (get_media_date f none).1)
             (mkRec f (get_media_date f none).1 (get_media_date f none).2)
      else acc := by
  rcases eq_or_ne (get_media_date f none).1.year TARGET_YEAR with h | h
  · simp [assignStep, h]
  · simp [assignStep, h]

theorem dayRecords_cons (f : MediaPath) (fs : List MediaPath) (d : String) :
    dayRecords (f :: fs) d =
      (if (get_media_date f none).1.year = TARGET_YEAR
          ∧ isoDateKey (get_media_date f none).1 = d
       then [mkRec f (get_media_date f none).1 (get_media_date f none).2] else [])
      ++ dayRecords fs d := by
  simp only [dayRecords, List.filterMap_cons]
  split_ifs with h
  · simp
  · simp

theorem lookupD_foldl_assignStep :
    ∀ (files : List MediaPath) (acc : DayBuckets) (d : String),
      lookupD (files.foldl assignStep acc) d = lookupD acc d ++ dayRecords files d
  | [], acc, d => by simp [dayRecords]
  | f :: fs, acc, d => by
    rw [List.foldl_cons, lookupD_foldl_assignStep fs (assignStep acc f) d,
      dayRecords_cons, assignStep_eq]
    rcases eq_or_ne (get_media_date f none).1.year TARGET_YEAR with hy | hy
    · rw [if_pos hy]
      rcases eq_or_ne (isoDateKey (get_media_date f none).1) d with hk | hk
      · rw [lookupD_bucketAdd, if_pos hk.symm, if_pos ⟨hy, hk⟩]
        simp
      · rw [lookupD_bucketAdd, if_neg (fun hh => hk hh.symm), if_neg (fun hh => hk hh.2)]
        simp
    · rw [if_neg hy, if_neg (fun hh => hy hh.1)]
      simp

theorem bucketAdd_nonempty {b : DayBuckets} {k : String} {r : MediaRec}
    (h : ∀ p ∈ b, p.2 ≠ ([] : List MediaRec)) :
    ∀ p ∈ bucketAdd b k r, p.2 ≠ ([] : List MediaRec) := by
  induction b with
  | nil =>
    intro p hp
    simp only [bucketAdd, List.mem_singleton] at hp
    subst hp
    simp
  | cons hd tl ih =>
    obtain ⟨k', l⟩ := hd
    intro p hp
    by_cases hk : k' = k
    · subst hk
      simp only [bucketAdd, if_pos rfl] at hp
      rcases List.mem_cons.mp hp with rfl | hp
      · simp
      · exact h p (List.mem_cons_of_mem _ hp)
    · simp only [bucketAdd, if_neg hk] at hp
      rcases List.mem_cons.mp hp with rfl | hp
      · exact h _ (List.mem_cons_self _ _)
      · exact ih (fun q hq => h q (List.mem_cons_of_mem _ hq)) p hp

theorem foldl_assignStep_nonempty :
    ∀ (files : List MediaPath) (acc : DayBuckets),
      (∀ p ∈ acc, p.2 ≠ ([] : List MediaRec)) →
      ∀ p ∈ files.foldl assignStep acc, p.2 ≠ ([] : List MediaRec)
  | [], _, h => h
  | f :: fs, acc, h => by
    rw [List.foldl_cons]
    apply foldl_assignStep_nonempty fs
    rw [assignStep_eq]
    split_ifs
    · exact bucketAdd_nonempty h
    · exact h

theorem nodup_bucketKeys_foldl :
    ∀ (files : List MediaPath) (acc : DayBuckets),
      (bucketKeys acc).Nodup → (bucketKeys (files.foldl assignStep acc)).Nodup
  | [], _, h => h
  | f :: fs, acc, h => by
    rw [List.foldl_cons]
    apply nodup_bucketKeys_foldl fs
    rw [assignStep_eq]
    split_ifs
    · exact nodup_bucketKeys_bucketAdd h
    · exact h

theorem mem_dayRecords {files : List MediaPath} {d : String} {r : MediaRec}
    (h : r ∈ dayRecords files d) :
    isoDateKey r.date = d ∧ r.date.year = TARGET_YEAR := by
  rw [dayRecords, List.mem_filterMap] at h
  obtain ⟨f, hf, hg⟩ := h
  by_cases hcond : (get_media_date f none).1.year = TARGET_YEAR
      ∧ isoDateKey (get_media_date f none).1 = d
  · rw [if_pos hcond] at hg
    injection hg with hg
    subst hg
    exact ⟨hcond.2, hcond.1⟩
  · rw [if_neg hcond] at hg
    cases hg

/-! ## Claim C6 — day-bucket invariant -/

/-- C6: every bucket of `assign_media_to_days` is non-empty, keyed by the
ISO date of its records (all of the target year); a file whose resolved
year differs from the target year appears in no bucket; and each bucket is
sorted ascending by resolved timestamp with the stable tie-break given by
original scan order (captured by the filter characterisation against the
scan-ordered `dayRecords`). -/
theorem assign_media_to_days_invariant (files : List MediaPath) (d : String)
    (bucket : List MediaRec) (hmem : (d, bucket) ∈ assign_media_to_days files) :
    bucket ≠ [] ∧
    (∀ r ∈ bucket, isoDateKey r.date = d ∧ r.date.year = TARGET_YEAR) ∧
    bucket.Pairwise (fun a b => DT.leb a.date b.date = true) ∧
    (∀ k : DT, bucket.filter (fun r => decide (r.date = k))
      = (dayRecords files d).filter (fun r => decide (r.date = k))) ∧
    (∀ r ∈ bucket, r ∈ dayRecords files d) ∧
    (∀ f ∈ files, (get_media_date f none).1.year ≠ TARGET_YEAR →
      mkRec f (get_media_date f none).1 (get_media_date f none).2 ∉ bucket) := by
  have rec_total : ∀ a b : MediaRec, recLeb a b = true ∨ recLeb b a = true :=
    fun a b => DT.leb_total a.date b.date
  have rec_trans : ∀ {a b c : MediaRec},
      recLeb a b = true → recLeb b c = true → recLeb a c = true :=
    fun h1 h2 => DT.leb_trans h1 h2
  obtain ⟨kv, hkv, heq⟩ := List.mem_map.mp hmem
  have h1 : kv.1 = d := congrArg Prod.fst heq
  have h2 : sortBy recLeb kv.2 = bucket := congrArg Prod.snd heq
  have hnd : (bucketKeys (files.foldl assignStep [])).Nodup :=
    nodup_bucketKeys_foldl files [] (by simp [bucketKeys])
  have hlk : lookupBucket (files.foldl assignStep []) d = some kv.2 := by
    have hkv' : (d, kv.2) ∈ files.foldl assignStep [] := by
      rw [← h1]
      simpa using hkv
    exact lookup_of_mem_pair hkv' hnd
  have hchar : kv.2 = dayRecords files d := by
    have h0 := lookupD_foldl_assignStep files [] d
    simp only [lookupD, hlk, Option.getD, lookupBucket] at h0
    simpa using h0
  have hbucket : bucket = sortBy recLeb (dayRecords files d) := by
    rw [← h2, hchar]
  have hperm : ∀ r, r ∈ bucket ↔ r ∈ dayRecords files d := by
    intro r
    rw [hbucket]
    exact (perm_sortBy recLeb (dayRecords files d)).mem_iff
  have hmemrec : ∀ r ∈ bucket, isoDateKey r.date = d ∧ r.date.year = TARGET_YEAR :=
    fun r hr => mem_dayRecords ((hperm r).mp hr)
  refine ⟨?_, hmemrec, ?_, ?_, fun r hr => (hperm r).mp hr, ?_⟩
  · have hne : kv.2 ≠ [] :=
      foldl_assignStep_nonempty files [] (by simp) kv (by simpa using hkv)
    intro hb
    apply hne
    have := (perm_sortBy recLeb kv.2).length_eq
    rw [← h2] at hb
    rw [hb] at this
    exact List.length_eq_zero.mp this.symm
  · rw [hbucket]
    exact pairwise_sortBy rec_total rec_trans _
  · intro k
    rw [hbucket]
    refine filter_sortBy ?_ rec_total rec_trans _
    intro a b ha hb
    have ha' : a.date = k := of_decide_eq_true ha
    have hb' : b.date = k := of_decide_eq_true hb
    simp [recLeb, ha', hb', DT.leb_refl]
  · intro f hf hy hin
    have := (hmemrec _ hin).2
    simp only [mkRec] at this
    exact hy this

/-- Witness for C6 on a one-file scan. -/
theorem assign_media_to_days_invariant_witness :
    isoDateKey (⟨"/in/a_20250102_161334.jpg", "a_20250102_161334.jpg", "image",
        ⟨2025, 1, 2, 16, 13, 34, 0⟩, "filename"⟩ : MediaRec).date = "2025-01-02" ∧
    (⟨"/in/a_20250102_161334.jpg", "a_20250102_161334.jpg", "image",
        ⟨2025, 1, 2, 16, 13, 34, 0⟩, "filename"⟩ : MediaRec).date.year = TARGET_YEAR := by
  have h := assign_media_to_days_invariant
    [⟨"/in/a_20250102_161334.jpg", "a_20250102_161334.jpg", .err, .err,
      ⟨2024, 1, 1, 0, 0, 0, 0⟩⟩]
    "2025-01-02"
    [⟨"/in/a_20250102_161334.jpg", "a_20250102_161334.jpg", "image",
      ⟨2025, 1, 2, 16, 13, 34, 0⟩, "filename"⟩]
    (by decide)
  exact h.2.1 _ (by decide)

/-! ## Checkpoint lemmas -/

theorem natLeb_total (a b : Nat) : natLeb a b = true ∨ natLeb b a = true := by
  simp [natLeb]
  omega

theorem natLeb_trans {a b c : Nat} (h1 : natLeb a b = true) (h2 : natLeb b c = true) :
    natLeb a c = true := by
  simp [natLeb] at h1 h2 ⊢
  omega

theorem removeFirst_not_mem {l : List Nat} {m : Nat} (hnd : l.Nodup) :
    m ∉ removeFirst l m := by
  induction l with
  | nil => simp [removeFirst]
  | cons x xs ih =>
    rw [List.nodup_cons] at hnd
    by_cases hx : x = m
    · subst hx
      simp only [removeFirst, if_pos rfl]
      exact hnd.1
    · simp only [removeFirst, if_neg hx, List.mem_cons]
      rintro (rfl | hm)
      · exact hx rfl
      · exact ih hnd.2 hm

theorem monthsOf_mkCkpt (s a c : Bool) (l : List Nat) :
    monthsOf (mkCkpt s a l c) = some l := rfl

theorem is_month_complete_mkCkpt (s a c : Bool) (l : List Nat) (m : Nat) :
    is_month_complete m (mkCkpt s a l c) = some (decide (m ∈ l)) := rfl

theorem mark_month_complete_mkCkpt (s a c : Bool) (l : List Nat)
    (disk : Option CheckpointData) (m : Nat) :
    mark_month_complete m ⟨mkCkpt s a l c, disk⟩ =
      if m ∈ l then some ⟨mkCkpt s a l c, disk⟩
      else some ⟨mkCkpt s a (sortBy natLeb (l ++ [m])) c,
        some (mkCkpt s a (sortBy natLeb (l ++ [m])) c)⟩ := by
  simp only [mark_month_complete, monthsOf_mkCkpt]
  split_ifs with h
  · rfl
  · rfl

theorem invalidate_month_mkCkpt (s a c : Bool) (l : List Nat)
    (disk : Option CheckpointData) (m : Nat) :
    invalidate_month m ⟨mkCkpt s a l c, disk⟩ =
      if m ∈ l then some ⟨mkCkpt s a (removeFirst l m) c,
          some (mkCkpt s a (removeFirst l m) c)⟩
      else some ⟨mkCkpt s a l c, disk⟩ := by
  simp only [invalidate_month, monthsOf_mkCkpt]
  split_ifs with h
  · rfl
  · rfl

/-! ## Claim C7 — checkpoint month round-trip -/

/-- C7: from any synced well-formed checkpoint state with duplicate-free
sorted month list, `mark_month_complete m` succeeds; reloading from the
persisted file then reports the month complete; `invalidate_month m` on the
reloaded state reports it incomplete afterwards; a repeated
`mark_month_complete m` is the identity; and the stored month list stays
duplicate-free and sorted. -/
theorem checkpoint_month_roundtrip (scan assign compl : Bool) (l : List Nat)
    (disk : Option CheckpointData) (m : Nat)
    (hsync : ckptLoad disk = mkCkpt scan assign l compl)
    (hnd : l.Nodup) (hsorted : l.Pairwise (· ≤ ·)) :
    ∃ st1 : CkptState,
      mark_month_complete m ⟨mkCkpt scan assign l compl, disk⟩ = some st1 ∧
      is_month_complete m (ckptLoad st1.disk) = some true ∧
      (∃ st2, invalidate_month m ⟨ckptLoad st1.disk, st1.disk⟩ = some st2 ∧
        is_month_complete m st2.mem = some false) ∧
      mark_month_complete m st1 = some st1 ∧
      (∃ l1, monthsOf st1.mem = some l1 ∧ m ∈ l1 ∧ l1.Nodup ∧
        l1.Pairwise (· ≤ ·)) := by
  by_cases hmem : m ∈ l
  · refine ⟨⟨mkCkpt scan assign l compl, disk⟩, ?_, ?_, ?_, ?_, ?_⟩
    · rw [mark_month_complete_mkCkpt, if_pos hmem]
    · simp [hsync, is_month_complete_mkCkpt, hmem]
    · refine ⟨⟨mkCkpt scan assign (removeFirst l m) compl,
        some (mkCkpt scan assign (removeFirst l m) compl)⟩, ?_, ?_⟩
      · simp only [hsync]
        rw [invalidate_month_mkCkpt, if_pos hmem]
      · simp [is_month_complete_mkCkpt, removeFirst_not_mem hnd]
    · rw [mark_month_complete_mkCkpt, if_pos hmem]
    · exact ⟨l, rfl, hmem, hnd, hsorted⟩
  · have hndL : (sortBy natLeb (l ++ [m])).Nodup := by
      rw [(perm_sortBy natLeb (l ++ [m])).nodup_iff]
      simp [List.nodup_append, hnd, hmem]
    have hmemL : m ∈ sortBy natLeb (l ++ [m]) := by
      rw [(perm_sortBy natLeb (l ++ [m])).mem_iff]
      simp
    refine ⟨⟨mkCkpt scan assign (sortBy natLeb (l ++ [m])) compl,
      some (mkCkpt scan assign (sortBy natLeb (l ++ [m])) compl)⟩, ?_, ?_, ?_, ?_, ?_⟩
    · rw [mark_month_complete_mkCkpt, if_neg hmem]
    · simp [ckptLoad, is_month_complete_mkCkpt, hmemL]
    · refine ⟨⟨mkCkpt scan assign (removeFirst (sortBy natLeb (l ++ [m])) m) compl,
        some (mkCkpt scan assign (removeFirst (sortBy natLeb (l ++ [m])) m) compl)⟩,
        ?_, ?_⟩
      · simp only [ckptLoad]
        rw [invalidate_month_mkCkpt, if_pos hmemL]
      · simp [is_month_complete_mkCkpt, removeFirst_not_mem hndL]
    · rw [mark_month_complete_mkCkpt, if_pos hmemL]
    · refine ⟨sortBy natLeb (l ++ [m]), rfl, hmemL, hndL, ?_⟩
      have := pairwise_sortBy natLeb_total (fun h1 h2 => natLeb_trans h1 h2)
        (l ++ [m])
      exact this.imp (fun h => by simpa [natLeb] using h)

/-- Witness for C7 starting from the empty checkpoint, month 7. -/
theorem checkpoint_month_roundtrip_witness :
    ∃ st1 : CkptState,
      mark_month_complete 7 ⟨mkCkpt false false [] false, none⟩ = some st1 ∧
      is_month_complete 7 (ckptLoad st1.disk) = some true := by
  obtain ⟨st1, ha, hb, -⟩ :=
    checkpoint_month_roundtrip false false false [] none 7 rfl (by simp) (by simp)
  exact ⟨st1, ha, hb⟩

/-! ## Claim C10 — unknown step names are no-ops -/

/-- C10: `mark_step_complete` with a step name other than `media_scan`,
`media_assignment`, `months_processed` leaves the checkpoint unchanged in
memory and on disk — no flag is set and no save occurs. -/
theorem mark_step_complete_unknown (scan assign compl : Bool) (l : List Nat)
    (disk : Option CheckpointData) (name : String)
    (h1 : name ≠ "media_scan") (h2 : name ≠ "media_assignment")
    (h3 : name ≠ "months_processed") :
    mark_step_complete name ⟨mkCkpt scan assign l compl, disk⟩
      = ⟨mkCkpt scan assign l compl, disk⟩ := by
  have hget : stepsGet (mkCkpt scan assign l compl).steps name = none := by
    simp only [mkCkpt, stepsGet]
    rw [if_neg (fun hh => h1 hh.symm), if_neg (fun hh => h2 hh.symm),
      if_neg (fun hh => h3 hh.symm)]
  simp [mark_step_complete, hget]

/-- Witness for C10: the unknown step name `render` changes nothing. -/
theorem mark_step_complete_unknown_witness :
    mark_step_complete "render" ⟨mkCkpt false false [3] true, none⟩
      = ⟨mkCkpt false false [3] true, none⟩ :=
  mark_step_complete_unknown false false true [3] none "render"
    (by decide) (by decide) (by decide)

/-! ## Month-loop lemmas -/

theorem genMonths_mkCkpt (oe hasM : Nat → Bool) :
    ∀ (ms : List Nat) (s a c : Bool) (L : List Nat) (disk : Option CheckpointData),
      ms.Nodup →
      ∃ ren stF, genMonths oe hasM ⟨mkCkpt s a L c, disk⟩ ms = some (ren, stF) ∧
        (∀ x ∈ ren, x ∈ ms) ∧
        (∀ m ∈ ms, (m ∈ ren ↔ ¬(m ∈ L ∧ oe m = true)))
  | [], s, a, c, L, disk, _ => ⟨[], _, rfl, by simp, by simp⟩
  | m0 :: ms, s, a, c, L, disk, hnd => by
    rw [List.nodup_cons] at hnd
    obtain ⟨hm0, hms⟩ := hnd
    by_cases hskip : (decide (m0 ∈ L) && oe m0) = true
    · obtain ⟨ren, stF, heq, hsub, hiff⟩ := genMonths_mkCkpt oe hasM ms s a c L disk hms
      refine ⟨ren, stF, ?_, ?_, ?_⟩
      · simp only [genMonths, is_month_complete_mkCkpt]
        rw [if_pos hskip]
        exact heq
      · exact fun x hx => List.mem_cons_of_mem _ (hsub x hx)
      · intro m hmem
        rcases List.mem_cons.mp hmem with rfl | hmem'
        · simp only [Bool.and_eq_true, decide_eq_true_eq] at hskip
          constructor
          · intro hin
            exact absurd (hsub _ hin) hm0
          · intro hc
            exact absurd hskip hc
        · exact hiff m hmem'
    · have hskip' : (decide (m0 ∈ L) && oe m0) = false := by
        simpa using hskip
      by_cases hhm : hasM m0 = true
      · obtain ⟨L2, disk2, hmark, hL2⟩ : ∃ L2 disk2,
            mark_month_complete m0 ⟨mkCkpt s a L c, disk⟩
              = some ⟨mkCkpt s a L2 c, disk2⟩ ∧
            ∀ x, x ∈ L2 ↔ x = m0 ∨ x ∈ L := by
          by_cases hin : m0 ∈ L
          · refine ⟨L, disk, by rw [mark_month_complete_mkCkpt, if_pos hin], fun x => ?_⟩
            constructor
            · exact Or.inr
            · rintro (rfl | hx)
              exacts [hin, hx]
          · refine ⟨sortBy natLeb (L ++ [m0]),
              some (mkCkpt s a (sortBy natLeb (L ++ [m0])) c),
              by rw [mark_month_complete_mkCkpt, if_neg hin], fun x => ?_⟩
            rw [(perm_sortBy natLeb (L ++ [m0])).mem_iff]
            simp [or_comm]
        obtain ⟨ren, stF, heq, hsub, hiff⟩ :=
          genMonths_mkCkpt oe hasM ms s a c L2 disk2 hms
        refine ⟨m0 :: ren, stF, ?_, ?_, ?_⟩
        · simp only [genMonths, is_month_complete_mkCkpt, hskip', Bool.false_eq_true,
            if_false, hhm, if_true, hmark, heq]
        · intro x hx
          rcases List.mem_cons.mp hx with rfl | hx
          exacts [List.mem_cons_self _ _, List.mem_cons_of_mem _ (hsub x hx)]
        · intro m hmem
          rcases List.mem_cons.mp hmem with rfl | hmem'
          · constructor
            · intro _ hc
              apply hskip
              simp [hc.1, hc.2]
            · intro _
              exact List.mem_cons_self _ _
          · have hne : m ≠ m0 := fun hh => hm0 (hh ▸ hmem')
            have hcons : (m ∈ m0 :: ren) ↔ m ∈ ren := by simp [hne]
            rw [hcons, hiff m hmem']
            constructor
            · intro h hc
              exact h ⟨(hL2 m).mpr (Or.inr hc.1), hc.2⟩
            · intro h hc
              rcases (hL2 m).mp hc.1 with rfl | hmL
              · exact absurd rfl hne
              · exact h ⟨hmL, hc.2⟩
      · have hhm' : hasM m0 = false := by simpa using hhm
        obtain ⟨ren, stF, heq, hsub, hiff⟩ :=
          genMonths_mkCkpt oe hasM ms s a c L disk hms
        refine ⟨m0 :: ren, stF, ?_, ?_, ?_⟩
        · simp only [genMonths, is_month_complete_mkCkpt, hskip', Bool.false_eq_true,
            if_false, hhm', heq]
        · intro x hx
          rcases List.mem_cons.mp hx with rfl | hx
          exacts [List.mem_cons_self _ _, List.mem_cons_of_mem _ (hsub x hx)]
        · intro m hmem
          rcases List.mem_cons.mp hmem with rfl | hmem'
          · constructor
            · intro _ hc
              apply hskip
              simp [hc.1, hc.2]
            · intro _
              exact List.mem_cons_self _ _
          · have hne : m ≠ m0 := fun hh => hm0 (hh ▸ hmem')
            have hcons : (m ∈ m0 :: ren) ↔ m ∈ ren := by simp [hne]
            rw [hcons]
            exact hiff m hmem'

/-! ## Claim C8 — a month is skipped iff complete and its output exists -/

/-- C8: over a resume run the month loop succeeds, and for every month
`m ∈ 1..12` the render step (`generate_month_video`) is *not* invoked for
`m` exactly when the checkpoint marks `m` complete and the month's expected
output file exists; in every other case the month is rendered. -/
theorem generate_optimized_skip_iff (outExists hasMedia : Nat → Bool)
    (scan assign compl : Bool) (l : List Nat) (disk : Option CheckpointData) :
    ∃ ren stF,
      generate_optimized_months outExists hasMedia ⟨mkCkpt scan assign l compl, disk⟩
        = some (ren, stF) ∧
      ∀ m, 1 ≤ m → m ≤ 12 → ((m ∉ ren) ↔ (m ∈ l ∧ outExists m = true)) := by
  obtain ⟨ren, stF, heq, hsub, hiff⟩ :=
    genMonths_mkCkpt outExists hasMedia ((List.range 12).map (· + 1))
      scan assign compl l disk (by decide)
  refine ⟨ren, stF, heq, ?_⟩
  intro m h1 h2
  have hm : m ∈ (List.range 12).map (· + 1) := by
    rw [List.mem_map]
    exact ⟨m - 1, by rw [List.mem_range]; omega, by omega⟩
  have hch := hiff m hm
  constructor
  · intro hnotin
    by_contra hc
    exact hnotin (hch.mpr hc)
  · intro hc hin
    exact (hch.mp hin) hc

/-- Witness for C8: month 3 is complete and its output exists, so it is
not rendered. -/
theorem generate_optimized_skip_iff_witness :
    ∃ ren stF,
      generate_optimized_months (fun m => decide (m = 3)) (fun _ => true)
        ⟨mkCkpt false false [3] false, none⟩ = some (ren, stF) ∧ 3 ∉ ren := by
  obtain ⟨ren, stF, heq, hiff⟩ := generate_optimized_skip_iff
    (fun m => decide (m = 3)) (fun _ => true) false false false [3] none
  exact ⟨ren, stF, heq, (hiff 3 (by decide) (by decide)).mpr (by decide)⟩

/-! ## Claim C5 — which files get their dates re-resolved -/

/-- C5 counterexample: with a fresh checkpoint, one unchanged file `"a"`
and one new file `"b"`, the assignment update invokes date resolution on
`"a"` as well, although `"a"` is in neither `new` nor `changed` — the
source re-runs `assign_media_to_days` over *all* current files. -/
theorem update_media_assignments_reresolves_unchanged :
    "a" ∈ (update_media_assignments
      ⟨⟨mkCkpt false false [] false, none⟩,
        [("a", "s1"), ("b", "s2")], [("a", "s1")], true⟩).1 ∧
    "a" ∉ filesToProcess
      ⟨⟨mkCkpt false false [] false, none⟩,
        [("a", "s1"), ("b", "s2")], [("a", "s1")], true⟩ := by
  decide

/-- C5 amended: date resolution is invoked either for no file at all — when
both checkpoint steps are already complete, or when `new ∪ changed` is empty
and the assignment JSON exists — or for every currently scanned file (not
only `new ∪ changed`). -/
theorem update_media_assignments_spec (env : PipelineEnv) :
    ((update_media_assignments env).1 = [] ∨
      (update_media_assignments env).1 = dictKeys env.currentFiles) ∧
    ((is_step_complete "media_scan" env.ckpt.mem &&
        is_step_complete "media_assignment" env.ckpt.mem) = true →
      (update_media_assignments env).1 = []) ∧
    ((is_step_complete "media_scan" env.ckpt.mem &&
        is_step_complete "media_assignment" env.ckpt.mem) = false →
      ((filesToProcess env).isEmpty && env.assignmentJsonExists) = true →
      (update_media_assignments env).1 = []) ∧
    ((is_step_complete "media_scan" env.ckpt.mem &&
        is_step_complete "media_assignment" env.ckpt.mem) = false →
      ((filesToProcess env).isEmpty && env.assignmentJsonExists) = false →
      (update_media_assignments env).1 = dictKeys env.currentFiles) := by
  simp only [update_media_assignments]
  split_ifs with hsteps hftp
  · exact ⟨Or.inl rfl, fun _ => rfl, fun _ _ => rfl,
      fun hcontra _ => absurd hsteps (by simp [hcontra])⟩
  · exact ⟨Or.inl rfl, fun hcontra => absurd hcontra hsteps, fun _ _ => rfl,
      fun _ hcontra => absurd hftp (by simp [hcontra])⟩
  · exact ⟨Or.inr rfl, fun hcontra => absurd hcontra hsteps,
      fun _ hcontra => absurd hcontra hftp, fun _ _ => rfl⟩

/-- Witness for C5 (amended) at the counterexample environment: all current
files are re-resolved. -/
theorem update_media_assignments_spec_witness :
    (update_media_assignments
      ⟨⟨mkCkpt false false [] false, none⟩,
        [("a", "s1"), ("b", "s2")], [("a", "s1")], true⟩).1 = ["a", "b"] :=
  (update_media_assignments_spec
    ⟨⟨mkCkpt false false [] false, none⟩,
      [("a", "s1"), ("b", "s2")], [("a", "s1")], true⟩).2.2.2
    (by decide) (by decide)

/-! ## Claim C9 — rendered-clip cache lookup contract -/

/-- C9 counterexample, refuting both halves of the claimed contract.
First: the directory entry `abc_photo.mp4` has a non-numeric prefix, yet
`get_processed_clips` maps base name `photo` to it, so a lookup hit does
not require a numeric-prefix entry.  Second: with the cache built from
`0001_photo.mp4` and every output file deleted (`pathExists` constantly
false), the month-rendering loop still reuses the mapped path and does not
invoke the render step — a deleted mapping is not treated as a miss and
the caller does not re-render. -/
theorem clip_cache_contract_counterexample :
    ((dictGetS (get_processed_clips "processed" ["abc_photo.mp4"]) "photo").isSome
        = true ∧
      (["abc_photo.mp4"].all (fun e => !(numericLeadEntry "photo" e))) = true) ∧
    generate_month_video_clip "photo.jpg"
        (get_processed_clips "processed" ["0001_photo.mp4"])
        (fun _ => false) (some "rendered/9999_photo.mp4")
      = (some "processed/0001_photo.mp4", false) := by
  decide

theorem dictGetS_dictSetS (d : SigDict) (k v b : String) :
    dictGetS (dictSetS d k v) b = if b = k then some v else dictGetS d b := by
  induction d with
  | nil =>
    rcases eq_or_ne b k with h | h
    · subst h
      simp [dictSetS, dictGetS]
    · simp [dictSetS, dictGetS, h, Ne.symm h]
  | cons hd tl ih =>
    obtain ⟨k', v'⟩ := hd
    by_cases hk : k' = k
    · subst hk
      rcases eq_or_ne b k' with h | h
      · subst h
        simp [dictSetS, dictGetS]
      · simp [dictSetS, dictGetS, h, Ne.symm h]
    · rcases eq_or_ne b k' with h | h
      · subst h
        simp [dictSetS, dictGetS, hk, Ne.symm hk]
      · simp only [dictSetS, if_neg hk, dictGetS, if_neg (Ne.symm h)]
        exact ih

theorem dictGetS_clipStep (folder : String) (acc : SigDict) (e base : String) :
    (dictGetS (clipStep folder acc e) base).isSome
      = (clipEntryMatches base e || (dictGetS acc base).isSome) := by
  simp only [clipStep, clipEntryMatches]
  by_cases h1 : (strEndsWith e ".mp4" && !(strStartsWith e "separator_")) = true
  · by_cases h2 : e.toList.contains '_' = true
    · have hm : '_' ∈ e.data := by simpa using h2
      rw [if_pos h1, if_pos h2, dictGetS_dictSetS]
      rcases eq_or_ne base (derivedOriginalName e) with hb | hb
      · rw [if_pos hb]
        have hd : decide (derivedOriginalName e = base) = true := by
          simp [hb]
        simp [h1, hd, hm]
      · rw [if_neg hb]
        have hd : decide (derivedOriginalName e = base) = false := by
          simp [Ne.symm hb]
        simp [hd]
    · have hm : '_' ∉ e.data := by simpa using h2
      rw [if_pos h1, if_neg (by simpa using h2)]
      simp [hm]
  · have h1' : (strEndsWith e ".mp4" && !(strStartsWith e "separator_")) = false := by
      simpa using h1
    rw [if_neg h1]
    simp [h1']

theorem get_processed_clips_aux (folder : String) :
    ∀ (listing : List String) (acc : SigDict) (base : String),
      (dictGetS (listing.foldl (clipStep folder) acc) base).isSome = true ↔
        (dictGetS acc base).isSome = true ∨
          ∃ e ∈ listing, clipEntryMatches base e = true
  | [], acc, base => by simp
  | e :: rest, acc, base => by
    rw [List.foldl_cons, get_processed_clips_aux folder rest (clipStep folder acc e) base]
    rw [show ((dictGetS (clipStep folder acc e) base).isSome = true) ↔
        (clipEntryMatches base e = true ∨ (dictGetS acc base).isSome = true) from by
      rw [dictGetS_clipStep]
      simp]
    simp only [List.mem_cons]
    constructor
    · rintro ((hm | hacc) | ⟨e', he', hm'⟩)
      · exact Or.inr ⟨e, Or.inl rfl, hm⟩
      · exact Or.inl hacc
      · exact Or.inr ⟨e', Or.inr he', hm'⟩
    · rintro (hacc | ⟨e', (rfl | he'), hm'⟩)
      · exact Or.inl (Or.inr hacc)
      · exact Or.inl (Or.inl hm')
      · exact Or.inr ⟨e', he', hm'⟩

/-- C9 amended: `lookup(baseName)` hits exactly when the rendered-output
directory contains a non-separator `.mp4` entry, containing an underscore,
whose text after the first underscore with every `".mp4"` occurrence
removed equals `baseName` (the claim's numeric-prefix convention is the
common special case, but any prefix before the first underscore is
accepted); and the month-rendering loop honors a cache hit as-is, with no
existence re-check: the mapped path is reused and the render step is not
invoked regardless of the disk state, while only on a cache miss is the
file rendered. -/
theorem clip_cache_lookup_spec :
    (∀ (folder : String) (listing : List String) (base : String),
      (dictGetS (get_processed_clips folder listing) base).isSome = true ↔
        ∃ e ∈ listing, clipEntryMatches base e = true) ∧
    (∀ (filename : String) (cache : SigDict) (pathExists : String → Bool)
        (rendered : Option String) (p : String),
      dictGetS cache (splitextStem filename) = some p →
      generate_month_video_clip filename cache pathExists rendered
        = (some p, false)) ∧
    (∀ (filename : String) (cache : SigDict) (pathExists : String → Bool)
        (rendered : Option String),
      dictGetS cache (splitextStem filename) = none →
      generate_month_video_clip filename cache pathExists rendered
        = (rendered, true)) := by
  refine ⟨?_, ?_, ?_⟩
  · intro folder listing base
    rw [get_processed_clips, get_processed_clips_aux folder listing [] base]
    simp [dictGetS]
  · intro filename cache pathExists rendered p hlk
    simp [generate_month_video_clip, hlk]
  · intro filename cache pathExists rendered hlk
    simp [generate_month_video_clip, hlk]

/-- Witness for C9 (amended): a conventional `0001_photo.mp4` entry is
found for base name `photo`, and the month loop reuses the mapped path
without invoking the render step even with every output file deleted. -/
theorem clip_cache_lookup_spec_witness :
    (dictGetS (get_processed_clips "processed" ["0001_photo.mp4"]) "photo").isSome
      = true ∧
    generate_month_video_clip "photo.jpg"
        (get_processed_clips "processed" ["0001_photo.mp4"]) (fun _ => false) none
      = (some "processed/0001_photo.mp4", false) :=
  ⟨(clip_cache_lookup_spec.1 "processed" ["0001_photo.mp4"] "photo").mpr
      ⟨"0001_photo.mp4", by decide, by decide⟩,
    clip_cache_lookup_spec.2.1 "photo.jpg"
      (get_processed_clips "processed" ["0001_photo.mp4"]) (fun _ => false) none
      "processed/0001_photo.mp4" (by decide)⟩

end YearRecap

